import Mathlib

/-!
Verification of the webhook responder in `src/main.py`.

The Python source is shallowly embedded: strings are `String` (a list of
Unicode code points, matching CPython's `str`), the JSON envelopes are a
small inductive `Json`, and the two effectful entry points
(`kakao_friend`, `background_process`) are pure functions parameterised by
oracles (`Except`) for the outcomes of the external completion-API call,
the body parse, and the outbound callback POST; their observable effects
(response, HTTP status, scheduled background tasks, attempted POSTs) are
returned as explicit records.
-/

set_option linter.unusedVariables false

namespace HyeongjunBot

/-- Python `str.isspace` / the character set removed by `str.strip()`
with no arguments: ASCII whitespace, the C1 separators, and the Unicode
space separators. -/
def pyIsSpace (c : Char) : Bool :=
  let n := c.toNat
  (9 ≤ n && n ≤ 13) || (28 ≤ n && n ≤ 32) || n = 0x85 || n = 0xA0 ||
  n = 0x1680 || (0x2000 ≤ n && n ≤ 0x200A) || n = 0x2028 || n = 0x2029 ||
  n = 0x202F || n = 0x205F || n = 0x3000

/-- The line-boundary characters recognised by Python `str.splitlines`:
LF, VT, FF, CR, FS, GS, RS, NEL, LINE SEPARATOR, PARAGRAPH SEPARATOR
(CRLF is treated as a single boundary, see `normCRLF`). -/
def isLineBoundary (c : Char) : Bool :=
  let n := c.toNat
  (10 ≤ n && n ≤ 13) || (28 ≤ n && n ≤ 30) || n = 0x85 || n = 0x2028 || n = 0x2029

/-- Python `str.strip()` on a list of code points: drop leading
whitespace, then drop trailing whitespace (as dropping leading
whitespace of the reversal). -/
def pyStripList (l : List Char) : List Char :=
  ((l.dropWhile pyIsSpace).reverse.dropWhile pyIsSpace).reverse

/-- Python `str.strip()`. -/
def pyStrip (s : String) : String :=
  ⟨pyStripList s.data⟩

/-- Collapse each CRLF pair into a single LF, so that `splitSimple` can
split on single boundary characters (Python `splitlines` counts `\r\n`
as one boundary). -/
def normCRLF : List Char → List Char
  | [] => []
  | [c] => [c]
  | c :: d :: rest =>
    if c = '\r' && d = '\n' then '\n' :: normCRLF rest
    else c :: normCRLF (d :: rest)

/-- Split at every single line-boundary character, keeping an accumulator
for the current (reversed) line.  Always produces at least one line; a
trailing boundary yields a trailing empty line. -/
def splitSimple : List Char → List Char → List (List Char)
  | acc, [] => [acc.reverse]
  | acc, c :: rest =>
    if isLineBoundary c then acc.reverse :: splitSimple [] rest
    else splitSimple (c :: acc) rest

/-- Python `str.splitlines()`: the empty string has no lines, and a
trailing line boundary does not produce a trailing empty line. -/
def pySplitlines (cs : List Char) : List (List Char) :=
  if cs.isEmpty then []
  else
    let ls := splitSimple [] (normCRLF cs)
    if ls.getLast? = some [] then ls.dropLast else ls

/-- Python `"\n".join(...)` on lists of code points. -/
def joinNL : List (List Char) → List Char
  | [] => []
  | [l] => l
  | l :: l2 :: ls => l ++ '\n' :: joinNL (l2 :: ls)

/-- `hasPfx pat hay` decides whether `pat` is a prefix of `hay`. -/
def hasPfx : List Char → List Char → Bool
  | [], _ => true
  | _ :: _, [] => false
  | a :: ps, b :: hs => a == b && hasPfx ps hs

/-- `containsSub hay pat` decides Python's `pat in hay` on strings:
`pat` occurs in `hay` as a contiguous substring. -/
def containsSub : List Char → List Char → Bool
  | [], pat => pat.isEmpty
  | a :: t, pat => hasPfx pat (a :: t) || containsSub t pat

/-! ## The JSON envelopes -/

/-- A fragment of JSON, enough for the envelopes the service builds. -/
inductive Json where
  | str : String → Json
  | bool : Bool → Json
  | arr : List Json → Json
  | obj : List (String × Json) → Json
deriving Repr

/-- The keys of a JSON object (empty for non-objects). -/
def Json.keys : Json → List String
  | .obj fields => fields.map Prod.fst
  | _ => []

/-- `kakao_text` from `src/main.py`: the platform text envelope
`\x7b"version": "2.0", "template": \x7b"outputs": [\x7b"simpleText": \x7b"text": msg\x7d\x7d]\x7d\x7d`. -/
def kakao_text (msg : String) : Json :=
  .obj [("version", .str "2.0"),
        ("template", .obj [("outputs",
          .arr [.obj [("simpleText", .obj [("text", .str msg)])]])])]

/-- The immediate acknowledgment returned in callback mode:
`\x7b"version": "2.0", "useCallback": true\x7d`. -/
def useCallbackResponse : Json :=
  .obj [("version", .str "2.0"), ("useCallback", .bool true)]

/-! ## String post-processing (`_EMOJI_RE`, `strip_emojis`, `collapse_lines`) -/

/-- Membership in the character class of `_EMOJI_RE`:
`[\U0001F300-\U0001FAFF\U00002700-\U000027BF\U0001F1E6-\U0001F1FF]`. -/
def isEmojiChar (c : Char) : Bool :=
  (0x1F300 ≤ c.toNat && c.toNat ≤ 0x1FAFF) ||
  (0x2700 ≤ c.toNat && c.toNat ≤ 0x27BF) ||
  (0x1F1E6 ≤ c.toNat && c.toNat ≤ 0x1F1FF)

/-- `strip_emojis` from `src/main.py`: `_EMOJI_RE.sub("", text)` deletes
exactly the characters of the class, keeping everything else. -/
def strip_emojis (text : String) : String :=
  ⟨text.data.filter (fun c => !isEmojiChar c)⟩

/-- The list comprehension of `collapse_lines`:
`[ln.strip() for ln in text.splitlines() if ln.strip()]`. -/
def nonEmptyTrimmedLines (cs : List Char) : List (List Char) :=
  ((pySplitlines cs).map pyStripList).filter (fun l => !l.isEmpty)

/-- `collapse_lines` from `src/main.py`: split into lines, strip each,
drop empty ones, keep the first `max_lines`, rejoin with `"\n"`, and
strip the result. -/
def collapse_lines (text : String) (max_lines : Nat := 3) : String :=
  ⟨pyStripList (joinNL ((nonEmptyTrimmedLines text.data).take max_lines))⟩

/-- The response formatter as the spec describes it: emoji stripping
followed by line collapsing (the post-processing applied in
`background_process`). -/
def format_response (s : String) : String :=
  collapse_lines (strip_emojis s) 3

/-! ## Tone heuristic and prompt composition -/

/-- The fixed politeness-marker substrings of `detect_politeness`. -/
def polite_markers : List String :=
  ["요", "니다", "까요", "드립니다", "했어요", "되나요", "주세요", "죄송", "감사"]

/-- `detect_politeness` from `src/main.py`. -/
def detect_politeness (user_text : String) : String :=
  let t := pyStripList user_text.data
  if polite_markers.any (fun m => containsSub t m.data) then "polite" else "casual"

/-- One conversational turn (a Python `\x7b"role": ..., "content": ...\x7d` dict). -/
structure ChatMessage where
  role : String
  content : String
deriving Repr, DecidableEq

/-- `FRIEND_SYSTEM` from `src/main.py` (the triple-quoted literal after
its `.strip()`). -/
def FRIEND_SYSTEM : String :=
  "너는 사용자의 \x27친구 전용\x27 챗봇이다. 따뜻하거나 친절한 톤 금지. 툭툭 던지는 친구 말투로.\n\n규칙:\n- 이모티콘/느낌표/감탄사 금지\n- 한 답변 1~3줄. 길게 설명 금지\n- 기본 반말. 사용자가 존댓말이면 너도 존댓말(딱딱하게)로만 맞춰\n- 공감은 선택. 꼭 해야 할 때만 한 단어로: \"ㅇㅇ\", \"그럴만함\", \"알겠음\"\n- 질문은 최대 1개. 캐묻지 마\n- 리액션 짧게: \"ㅇㅇ\", \"ㅇㅋ\", \"왜\", \"와이\", \"?\", \"ㄱㄱ\", \"ㄴㄴ\", \"ㅋㅋ\"\n- 해결은 A/B 한줄 정리 또는 다음 액션 한줄만 제시"

/-- `FRIEND_PROFILE` from `src/main.py` (after its `.strip()`). -/
def FRIEND_PROFILE : String :=
  "[내 프로필(친구용)]\n- 생일: 1999/06/08\n- 소속: 한양대 대학원(석박통합) / (UNICON 랩)\n- 말투: 이모티콘 안씀, 짧게 말함, 현실적으로 정리함"

/-- `FRIEND_FEWSHOT` from `src/main.py`: the fixed few-shot example turns. -/
def FRIEND_FEWSHOT : List ChatMessage :=
  [⟨"user", "뭐하냐"⟩,
   ⟨"assistant", "그냥 있음. 와이"⟩,
   ⟨"user", "나 요즘 너무 바빠서 뭐부터 해야할지 모르겠음"⟩,
   ⟨"assistant", "급한거부터. 마감 뭐임"⟩]

/-- `build_messages` from `src/main.py`. -/
def build_messages (user_text : String) : List ChatMessage :=
  let mode := detect_politeness user_text
  let style_addon :=
    if mode = "polite" then "사용자가 존댓말이면 너도 존댓말로." else "사용자가 반말이면 너도 반말로."
  ⟨"system", FRIEND_SYSTEM ++ "\n" ++ style_addon ++ "\n\n" ++ FRIEND_PROFILE⟩ ::
    (FRIEND_FEWSHOT ++ [⟨"user", user_text⟩])

/-! ## The background task and the handler -/

/-- Observable outcome of `background_process`: whether the completion
API was invoked, every outbound POST attempted as `(url, body)`, and
whether the `except` branch logged an error. -/
structure BgOutcome where
  completionCalled : Bool
  posts : List (String × Json)
  errorLogged : Bool
deriving Repr

/-- `background_process` from `src/main.py`.  `completion` is the oracle
for `client.chat.completions.create` (an `.error` covers any exception:
network failure, timeout, missing choices, `None` content); `postResult`
is the oracle for the `httpx` POST to the callback URL.  On completion
success the answer is `content.strip()`, emoji-stripped, collapsed to 3
lines, and exactly one POST of the `kakao_text` envelope is attempted;
any exception is caught and only logged. -/
def background_process (callback_url : String) (user_text : String)
    (completion : Except String String) (postResult : Except String Unit) : BgOutcome :=
  match completion with
  | .error _ => { completionCalled := true, posts := [], errorLogged := true }
  | .ok content =>
    let answer := collapse_lines (strip_emojis (pyStrip content)) 3
    { completionCalled := true
      posts := [(callback_url, kakao_text answer)]
      errorLogged := match postResult with | .ok _ => false | .error _ => true }

/-- Observable outcome of one call to the `kakao_friend` handler: the
JSON body and HTTP status of the response, the background tasks
scheduled via `background_tasks.add_task` (as `(callback_url, user_text)`
argument pairs), and the `timeout` parameter of every synchronous
completion-API call made. -/
structure HandlerOutcome where
  response : Json
  status : Nat
  scheduled : List (String × String)
  syncCallTimeouts : List Nat
deriving Repr

/-- Python truthiness of the optional `callbackUrl` value
(`None` and `""` are falsy). -/
def truthy : Option String → Bool
  | none => false
  | some s => s != ""

/-- `kakao_friend` from `src/main.py`.  `body` is the oracle for parsing
and extracting the request body: `.ok (utterance, callbackUrl)` when
`await req.json()` and the field accesses succeed, `.error` when any of
them raises.  `completion` is the oracle for the synchronous
completion-API call (made with `timeout=4.0`); `.error` covers any
exception including a timeout.  Every exception is caught by the
handler's `except` and answered with `kakao_text "오류."`; `JSONResponse`
defaults to HTTP status 200 on every path. -/
def kakao_friend (body : Except String (String × Option String))
    (completion : Except String String) : HandlerOutcome :=
  match body with
  | .error _ => { response := kakao_text "오류.", status := 200, scheduled := [], syncCallTimeouts := [] }
  | .ok (utterance, callbackUrl) =>
    let user_text := pyStrip utterance
    if user_text = "" then
      { response := kakao_text "?", status := 200, scheduled := [], syncCallTimeouts := [] }
    else if truthy callbackUrl then
      { response := useCallbackResponse, status := 200,
        scheduled := [(callbackUrl.getD "", user_text)], syncCallTimeouts := [] }
    else
      match completion with
      | .ok content =>
        { response := kakao_text (strip_emojis (pyStrip content)), status := 200,
          scheduled := [], syncCallTimeouts := [4] }
      | .error _ =>
        { response := kakao_text "오류.", status := 200, scheduled := [], syncCallTimeouts := [4] }

/-! ## Lemmas: `pyStripList` -/

theorem head?_dropWhile_false {p : Char → Bool} :
    ∀ {l : List Char} {a : Char}, (l.dropWhile p).head? = some a → p a = false := by
  intro l
  induction l with
  | nil => intro a h; simp at h
  | cons b t ih =>
    intro a h
    rw [List.dropWhile_cons] at h
    by_cases hb : p b
    · simp [hb] at h
      exact ih h
    · simp [hb] at h
      rw [← h]
      exact Bool.eq_false_iff.mpr hb

theorem dropWhile_eq_self_of_head? {p : Char → Bool} {l : List Char}
    (h : ∀ a, l.head? = some a → p a = false) : l.dropWhile p = l := by
  cases l with
  | nil => rfl
  | cons b t =>
    rw [List.dropWhile_cons, if_neg]
    simp [h b rfl]

theorem getLast?_of_suffix {l₁ l₂ : List Char} (h : l₁ <:+ l₂) (hne : l₁ ≠ []) :
    l₂.getLast? = l₁.getLast? := by
  rcases h with ⟨t, rfl⟩
  rw [List.getLast?_append]
  cases hgl : l₁.getLast? with
  | none => exact absurd (by simpa using hgl) hne
  | some a => rfl

theorem mem_pyStripList {l : List Char} {c : Char} (h : c ∈ pyStripList l) : c ∈ l := by
  unfold pyStripList at h
  rw [List.mem_reverse] at h
  have h2 := (List.dropWhile_sublist _).mem h
  rw [List.mem_reverse] at h2
  exact (List.dropWhile_sublist _).mem h2

theorem pyStripList_head?_false {l : List Char} {a : Char}
    (h : (pyStripList l).head? = some a) : pyIsSpace a = false := by
  unfold pyStripList at h
  rw [List.head?_reverse] at h
  have hne : (l.dropWhile pyIsSpace).reverse.dropWhile pyIsSpace ≠ [] := by
    intro hnil; rw [hnil] at h; simp at h
  rw [← getLast?_of_suffix (List.dropWhile_suffix _) hne] at h
  rw [List.getLast?_reverse] at h
  exact head?_dropWhile_false h

theorem pyStripList_getLast?_false {l : List Char} {a : Char}
    (h : (pyStripList l).getLast? = some a) : pyIsSpace a = false := by
  unfold pyStripList at h
  rw [List.getLast?_reverse] at h
  exact head?_dropWhile_false h

theorem pyStripList_eq_self {l : List Char}
    (hh : ∀ a, l.head? = some a → pyIsSpace a = false)
    (hl : ∀ a, l.getLast? = some a → pyIsSpace a = false) : pyStripList l = l := by
  unfold pyStripList
  rw [dropWhile_eq_self_of_head? hh]
  rw [dropWhile_eq_self_of_head? (by intro a ha; rw [List.head?_reverse] at ha; exact hl a ha)]
  exact List.reverse_reverse l

theorem pyStripList_idem (l : List Char) :
    pyStripList (pyStripList l) = pyStripList l :=
  pyStripList_eq_self (fun _ h => pyStripList_head?_false h)
    (fun _ h => pyStripList_getLast?_false h)

/-! ## Lemmas: `normCRLF`, `splitSimple`, `joinNL`, `pySplitlines` -/

theorem normCRLF_cons_ne {c : Char} (h : ¬c = '\r') (rest : List Char) :
    normCRLF (c :: rest) = c :: normCRLF rest := by
  cases rest with
  | nil => rfl
  | cons d t => simp [normCRLF, h]

theorem mem_normCRLF : ∀ {l : List Char} {c : Char}, c ∈ normCRLF l → c ∈ l := by
  intro l
  induction l with
  | nil => intro c h; simp [normCRLF] at h
  | cons a rest ih =>
    intro c h
    by_cases ha : a = '\r'
    · subst ha
      cases rest with
      | nil => simpa [normCRLF] using h
      | cons d t =>
        by_cases hd : d = '\n'
        · subst hd
          rw [show normCRLF ('\r' :: '\n' :: t) = '\n' :: normCRLF t by simp [normCRLF]] at h
          rcases List.mem_cons.mp h with h1 | h2
          · simp [h1]
          · have h3 : c ∈ normCRLF ('\n' :: t) := by
              rw [normCRLF_cons_ne (by decide) t]
              exact List.mem_cons_of_mem _ h2
            have h4 := ih h3
            rcases List.mem_cons.mp h4 with h5 | h5
            · simp [h5]
            · simp [List.mem_cons_of_mem, h5]
        · rw [show normCRLF ('\r' :: d :: t) = '\r' :: normCRLF (d :: t) by simp [normCRLF, hd]] at h
          rcases List.mem_cons.mp h with h1 | h2
          · simp [h1]
          · exact List.mem_cons_of_mem _ (ih h2)
    · rw [normCRLF_cons_ne ha rest] at h
      rcases List.mem_cons.mp h with h1 | h2
      · simp [h1]
      · exact List.mem_cons_of_mem _ (ih h2)

theorem normCRLF_eq_self : ∀ {l : List Char}, '\r' ∉ l → normCRLF l = l := by
  intro l
  induction l with
  | nil => intro _; rfl
  | cons a rest ih =>
    intro h
    rw [normCRLF_cons_ne (fun he => h (he ▸ List.mem_cons_self a rest)) rest]
    rw [ih (fun hm => h (List.mem_cons_of_mem _ hm))]

theorem splitSimple_ne_nil : ∀ (cs acc : List Char), splitSimple acc cs ≠ [] := by
  intro cs
  induction cs with
  | nil => intro acc; simp [splitSimple]
  | cons c rest ih =>
    intro acc
    simp only [splitSimple]
    by_cases h : isLineBoundary c
    · simp [h]
    · simpa [h] using ih (c :: acc)

theorem mem_splitSimple :
    ∀ (cs acc : List Char) {l : List Char}, l ∈ splitSimple acc cs →
      ∀ {c : Char}, c ∈ l → c ∈ acc ∨ c ∈ cs := by
  intro cs
  induction cs with
  | nil =>
    intro acc l hl c hc
    simp [splitSimple] at hl
    subst hl
    left; simpa using hc
  | cons a rest ih =>
    intro acc l hl c hc
    simp only [splitSimple] at hl
    by_cases h : isLineBoundary a
    · rw [if_pos h] at hl
      rcases List.mem_cons.mp hl with h1 | h2
      · subst h1; left; simpa using hc
      · rcases ih [] h2 hc with h3 | h3
        · simp at h3
        · right; exact List.mem_cons_of_mem _ h3
    · rw [if_neg h] at hl
      rcases ih (a :: acc) hl hc with h3 | h3
      · rcases List.mem_cons.mp h3 with h4 | h4
        · right; simp [h4]
        · left; exact h4
      · right; exact List.mem_cons_of_mem _ h3

theorem splitSimple_boundary_false :
    ∀ (cs acc : List Char), (∀ c ∈ acc, isLineBoundary c = false) →
      ∀ {l : List Char}, l ∈ splitSimple acc cs →
        ∀ {c : Char}, c ∈ l → isLineBoundary c = false := by
  intro cs
  induction cs with
  | nil =>
    intro acc hacc l hl c hc
    simp [splitSimple] at hl
    subst hl
    exact hacc c (by simpa using hc)
  | cons a rest ih =>
    intro acc hacc l hl c hc
    simp only [splitSimple] at hl
    by_cases h : isLineBoundary a
    · rw [if_pos h] at hl
      rcases List.mem_cons.mp hl with h1 | h2
      · subst h1; exact hacc c (by simpa using hc)
      · exact ih [] (by simp) h2 hc
    · rw [if_neg h] at hl
      refine ih (a :: acc) ?_ hl hc
      intro d hd
      rcases List.mem_cons.mp hd with h4 | h4
      · subst h4; exact Bool.eq_false_iff.mpr h
      · exact hacc d h4

theorem splitSimple_of_no_boundary :
    ∀ (cs acc : List Char), (∀ c ∈ cs, isLineBoundary c = false) →
      splitSimple acc cs = [acc.reverse ++ cs] := by
  intro cs
  induction cs with
  | nil => intro acc _; simp [splitSimple]
  | cons a rest ih =>
    intro acc h
    simp only [splitSimple]
    rw [if_neg (by simp [h a (List.mem_cons_self a rest)])]
    rw [ih (a :: acc) (fun c hc => h c (List.mem_cons_of_mem _ hc))]
    simp

theorem splitSimple_append_nl :
    ∀ (l acc t : List Char), (∀ c ∈ l, isLineBoundary c = false) →
      splitSimple acc (l ++ '\n' :: t) = (acc.reverse ++ l) :: splitSimple [] t := by
  intro l
  induction l with
  | nil =>
    intro acc t _
    simp only [List.nil_append, splitSimple]
    rw [if_pos (by decide)]
    simp
  | cons a l' ih =>
    intro acc t h
    simp only [List.cons_append, splitSimple]
    rw [if_neg (by simp [h a (List.mem_cons_self a l')])]
    simp only [List.append_eq]
    rw [ih (a :: acc) t (fun c hc => h c (List.mem_cons_of_mem _ hc))]
    simp

theorem joinNL_ne_nil : ∀ {L : List (List Char)}, L ≠ [] → (∀ l ∈ L, l ≠ []) →
    joinNL L ≠ [] := by
  intro L hL hmem
  cases L with
  | nil => exact absurd rfl hL
  | cons l ls =>
    cases ls with
    | nil => simpa [joinNL] using hmem l (by simp)
    | cons l2 ls' => simp [joinNL]

theorem mem_joinNL : ∀ {L : List (List Char)} {c : Char}, c ∈ joinNL L →
    c = '\n' ∨ ∃ l ∈ L, c ∈ l := by
  intro L
  induction L with
  | nil => intro c h; simp [joinNL] at h
  | cons l ls ih =>
    intro c h
    cases ls with
    | nil =>
      simp only [joinNL] at h
      right; exact ⟨l, by simp, h⟩
    | cons l2 ls' =>
      simp only [joinNL, List.mem_append, List.mem_cons] at h
      rcases h with h1 | h2 | h3
      · right; exact ⟨l, by simp, h1⟩
      · left; exact h2
      · rcases ih h3 with h4 | ⟨m, hm, hcm⟩
        · left; exact h4
        · right; exact ⟨m, List.mem_cons_of_mem _ hm, hcm⟩

theorem head?_joinNL : ∀ {L : List (List Char)}, (∀ l ∈ L, l ≠ []) →
    ∀ {a : Char}, (joinNL L).head? = some a → ∃ l ∈ L, l.head? = some a := by
  intro L hmem a h
  cases L with
  | nil => simp [joinNL] at h
  | cons l ls =>
    have hl : l ≠ [] := hmem l (by simp)
    cases ls with
    | nil =>
      simp only [joinNL] at h
      exact ⟨l, by simp, h⟩
    | cons l2 ls' =>
      simp only [joinNL] at h
      cases l with
      | nil => exact absurd rfl hl
      | cons b t =>
        refine ⟨b :: t, by simp, ?_⟩
        simpa using h

theorem getLast?_cons_of_ne_nil {c : Char} {t : List Char} (h : t ≠ []) :
    (c :: t).getLast? = t.getLast? := by
  cases t with
  | nil => exact absurd rfl h
  | cons b r => simp [List.getLast?_cons_cons]

theorem getLast?_joinNL : ∀ {L : List (List Char)}, (∀ l ∈ L, l ≠ []) →
    ∀ {a : Char}, (joinNL L).getLast? = some a → ∃ l ∈ L, l.getLast? = some a := by
  intro L
  induction L with
  | nil => intro _ a h; simp [joinNL] at h
  | cons l ls ih =>
    intro hmem a h
    cases ls with
    | nil =>
      simp only [joinNL] at h
      exact ⟨l, by simp, h⟩
    | cons l2 ls' =>
      simp only [joinNL] at h
      have hjoin : joinNL (l2 :: ls') ≠ [] :=
        joinNL_ne_nil (by simp) (fun m hm => hmem m (List.mem_cons_of_mem _ hm))
      rw [List.getLast?_append] at h
      rw [getLast?_cons_of_ne_nil hjoin] at h
      cases hgl : (joinNL (l2 :: ls')).getLast? with
      | none =>
        exact absurd (by simpa using hgl) (by simpa using (List.getLast?_isSome).mpr hjoin)
      | some b =>
        rw [hgl] at h
        simp only [Option.or] at h
        have hb : b = a := by simpa using h
        subst hb
        rcases ih (fun m hm => hmem m (List.mem_cons_of_mem _ hm)) hgl with ⟨m, hm, hgm⟩
        exact ⟨m, List.mem_cons_of_mem _ hm, hgm⟩

theorem mem_pySplitlines {cs l : List Char} (hl : l ∈ pySplitlines cs)
    {c : Char} (hc : c ∈ l) : c ∈ cs := by
  simp only [pySplitlines] at hl
  by_cases hemp : cs.isEmpty
  · rw [if_pos hemp] at hl; simp at hl
  · rw [if_neg hemp] at hl
    have hl2 : l ∈ splitSimple [] (normCRLF cs) := by
      by_cases hlast : (splitSimple [] (normCRLF cs)).getLast? = some []
      · rw [if_pos hlast] at hl
        exact (List.dropLast_sublist _).mem hl
      · rwa [if_neg hlast] at hl
    rcases mem_splitSimple (normCRLF cs) [] hl2 hc with h | h
    · simp at h
    · exact mem_normCRLF h

theorem pySplitlines_boundary_false {cs l : List Char} (hl : l ∈ pySplitlines cs)
    {c : Char} (hc : c ∈ l) : isLineBoundary c = false := by
  simp only [pySplitlines] at hl
  by_cases hemp : cs.isEmpty
  · rw [if_pos hemp] at hl; simp at hl
  · rw [if_neg hemp] at hl
    have hl2 : l ∈ splitSimple [] (normCRLF cs) := by
      by_cases hlast : (splitSimple [] (normCRLF cs)).getLast? = some []
      · rw [if_pos hlast] at hl
        exact (List.dropLast_sublist _).mem hl
      · rwa [if_neg hlast] at hl
    exact splitSimple_boundary_false (normCRLF cs) [] (by simp) hl2 hc

theorem splitSimple_joinNL :
    ∀ (L : List (List Char)), L ≠ [] → (∀ l ∈ L, ∀ c ∈ l, isLineBoundary c = false) →
      splitSimple [] (joinNL L) = L := by
  intro L
  induction L with
  | nil => intro h _; exact absurd rfl h
  | cons l ls ih =>
    intro _ hbf
    cases ls with
    | nil =>
      simp only [joinNL]
      rw [splitSimple_of_no_boundary l [] (hbf l (by simp))]
      simp
    | cons l2 ls' =>
      simp only [joinNL]
      rw [splitSimple_append_nl l [] (joinNL (l2 :: ls')) (hbf l (by simp))]
      rw [ih (by simp) (fun m hm c hc => hbf m (List.mem_cons_of_mem _ hm) c hc)]
      simp

theorem pySplitlines_joinNL {L : List (List Char)} (hne : L ≠ [])
    (hmem : ∀ l ∈ L, l ≠ []) (hbf : ∀ l ∈ L, ∀ c ∈ l, isLineBoundary c = false) :
    pySplitlines (joinNL L) = L := by
  have hjne : joinNL L ≠ [] := joinNL_ne_nil hne hmem
  have hnr : '\r' ∉ joinNL L := by
    intro hr
    rcases mem_joinNL hr with h | ⟨l, hlL, hrl⟩
    · exact absurd h (by decide)
    · exact absurd (hbf l hlL '\r' hrl) (by decide)
  simp only [pySplitlines]
  rw [if_neg (by simpa using hjne)]
  rw [normCRLF_eq_self hnr]
  rw [splitSimple_joinNL L hne hbf]
  rw [if_neg ?_]
  intro hlast
  rcases List.getLast?_eq_some_iff.mp hlast with ⟨ys, hys⟩
  exact hmem [] (hys ▸ (by simp)) rfl

/-! ## Lemmas: `nonEmptyTrimmedLines`, `collapse_lines`, the formatter -/

theorem nonEmptyTrimmedLines_mem {cs l : List Char}
    (hl : l ∈ nonEmptyTrimmedLines cs) :
    l ≠ [] ∧ pyStripList l = l ∧ (∀ c ∈ l, isLineBoundary c = false) ∧ (∀ c ∈ l, c ∈ cs) := by
  unfold nonEmptyTrimmedLines at hl
  rcases List.mem_filter.mp hl with ⟨hmap, hne⟩
  rcases List.mem_map.mp hmap with ⟨l0, hl0, rfl⟩
  refine ⟨by simpa using hne, pyStripList_idem l0, ?_, ?_⟩
  · intro c hc
    exact pySplitlines_boundary_false hl0 (mem_pyStripList hc)
  · intro c hc
    exact mem_pySplitlines hl0 (mem_pyStripList hc)

theorem pyStripList_joinNL {L : List (List Char)}
    (hmem : ∀ l ∈ L, l ≠ []) (hstrip : ∀ l ∈ L, pyStripList l = l) :
    pyStripList (joinNL L) = joinNL L := by
  apply pyStripList_eq_self
  · intro a ha
    rcases head?_joinNL hmem ha with ⟨l, hl, hla⟩
    exact pyStripList_head?_false (l := l) (by rw [hstrip l hl]; exact hla)
  · intro a ha
    rcases getLast?_joinNL hmem ha with ⟨l, hl, hla⟩
    exact pyStripList_getLast?_false (l := l) (by rw [hstrip l hl]; exact hla)

theorem collapse_lines_eq_joinNL (s : String) (n : Nat) :
    collapse_lines s n = ⟨joinNL ((nonEmptyTrimmedLines s.data).take n)⟩ := by
  unfold collapse_lines
  congr 1
  apply pyStripList_joinNL
  · intro l hl
    exact (nonEmptyTrimmedLines_mem ((List.take_sublist _ _).mem hl)).1
  · intro l hl
    exact (nonEmptyTrimmedLines_mem ((List.take_sublist _ _).mem hl)).2.1

theorem nonEmptyTrimmedLines_joinNL {L : List (List Char)}
    (hmem : ∀ l ∈ L, l ≠ []) (hstrip : ∀ l ∈ L, pyStripList l = l)
    (hbf : ∀ l ∈ L, ∀ c ∈ l, isLineBoundary c = false) :
    nonEmptyTrimmedLines (joinNL L) = L := by
  cases hL : L with
  | nil => simp [joinNL, nonEmptyTrimmedLines, pySplitlines]
  | cons l0 ls =>
    rw [← hL]
    have hne : L ≠ [] := by rw [hL]; simp
    unfold nonEmptyTrimmedLines
    rw [pySplitlines_joinNL hne hmem hbf]
    rw [List.map_congr_left hstrip, List.map_id']
    apply List.filter_eq_self.mpr
    intro l hl
    simpa using hmem l hl

theorem collapse_lines_idem (s : String) (n : Nat) :
    collapse_lines (collapse_lines s n) n = collapse_lines s n := by
  have hmem : ∀ l ∈ (nonEmptyTrimmedLines s.data).take n, l ≠ [] :=
    fun l hl => (nonEmptyTrimmedLines_mem ((List.take_sublist _ _).mem hl)).1
  have hstrip : ∀ l ∈ (nonEmptyTrimmedLines s.data).take n, pyStripList l = l :=
    fun l hl => (nonEmptyTrimmedLines_mem ((List.take_sublist _ _).mem hl)).2.1
  have hbf : ∀ l ∈ (nonEmptyTrimmedLines s.data).take n, ∀ c ∈ l, isLineBoundary c = false :=
    fun l hl => (nonEmptyTrimmedLines_mem ((List.take_sublist _ _).mem hl)).2.2.1
  rw [collapse_lines_eq_joinNL s n]
  rw [collapse_lines_eq_joinNL ⟨joinNL ((nonEmptyTrimmedLines s.data).take n)⟩ n]
  congr 1
  rw [show (String.mk (joinNL ((nonEmptyTrimmedLines s.data).take n))).data
        = joinNL ((nonEmptyTrimmedLines s.data).take n) from rfl]
  rw [nonEmptyTrimmedLines_joinNL hmem hstrip hbf]
  rw [List.take_of_length_le]
  calc ((nonEmptyTrimmedLines s.data).take n).length
      = min n (nonEmptyTrimmedLines s.data).length := List.length_take n _
    _ ≤ n := min_le_left _ _

theorem strip_emojis_idem (s : String) :
    strip_emojis (strip_emojis s) = strip_emojis s := by
  unfold strip_emojis
  congr 1
  rw [show (String.mk (s.data.filter (fun c => !isEmojiChar c))).data
        = s.data.filter (fun c => !isEmojiChar c) from rfl]
  rw [List.filter_filter]
  apply List.filter_congr
  intro c _
  simp

theorem strip_emojis_eq_self {s : String}
    (h : ∀ c ∈ s.data, isEmojiChar c = false) : strip_emojis s = s := by
  unfold strip_emojis
  cases s with
  | mk data =>
    congr 1
    apply List.filter_eq_self.mpr
    intro c hc
    simpa using h c hc

theorem mem_strip_emojis {s : String} {c : Char} (hc : c ∈ (strip_emojis s).data) :
    c ∈ s.data ∧ isEmojiChar c = false := by
  unfold strip_emojis at hc
  rcases List.mem_filter.mp hc with ⟨h1, h2⟩
  exact ⟨h1, by simpa using h2⟩

theorem mem_collapse_lines {s : String} {n : Nat} {c : Char}
    (hc : c ∈ (collapse_lines s n).data) : c = '\n' ∨ c ∈ s.data := by
  unfold collapse_lines at hc
  have h1 := mem_pyStripList hc
  rcases mem_joinNL h1 with h | ⟨l, hl, hcl⟩
  · left; exact h
  · right
    exact (nonEmptyTrimmedLines_mem ((List.take_sublist _ _).mem hl)).2.2.2 c hcl

theorem format_response_idem (s : String) :
    format_response (format_response s) = format_response s := by
  unfold format_response
  have hfree : ∀ c ∈ (collapse_lines (strip_emojis s) 3).data, isEmojiChar c = false := by
    intro c hc
    rcases mem_collapse_lines hc with h | h
    · subst h; decide
    · exact (mem_strip_emojis h).2
  rw [strip_emojis_eq_self hfree]
  exact collapse_lines_idem _ 3

/-! ## Lemmas: substring containment -/

theorem hasPfx_iff : ∀ (p h : List Char), hasPfx p h = true ↔ p <+: h := by
  intro p
  induction p with
  | nil => intro h; simp [hasPfx]
  | cons a ps ih =>
    intro h
    cases h with
    | nil => simp [hasPfx]
    | cons b hs => simp [hasPfx, List.cons_prefix_cons, ih hs, And.comm]

theorem containsSub_iff : ∀ (h p : List Char), containsSub h p = true ↔ p <:+: h := by
  intro h
  induction h with
  | nil =>
    intro p
    simp only [containsSub]
    constructor
    · intro hp
      have : p = [] := by simpa using hp
      subst this
      exact List.infix_refl []
    · rintro ⟨s, t, hst⟩
      rcases List.append_eq_nil.mp hst with ⟨h1, h2⟩
      rcases List.append_eq_nil.mp h1 with ⟨h3, h4⟩
      subst h4
      simp
  | cons a t ih =>
    intro p
    simp only [containsSub, Bool.or_eq_true]
    constructor
    · rintro (h1 | h2)
      · exact ((hasPfx_iff p (a :: t)).mp h1).isInfix
      · exact List.infix_cons ((ih p).mp h2)
    · rintro ⟨s, u, hsu⟩
      cases s with
      | nil =>
        left
        exact (hasPfx_iff p (a :: t)).mpr ⟨u, by simpa using hsu⟩
      | cons b s' =>
        right
        have hb : b = a ∧ s' ++ p ++ u = t := by
          constructor
          · have := congrArg List.head? hsu
            simpa using this
          · have := congrArg List.tail hsu
            simpa using this
        exact (ih p).mpr ⟨s', u, hb.2⟩

/-! ## Claims -/

/-- Claim C6: for every input string with more than 3 non-empty trimmed
lines, `collapse_lines` returns exactly the first 3 non-empty trimmed
lines joined by line breaks, in their original order (splitting the
output recovers exactly those lines). -/
theorem c6_collapse_first_three (s : String)
    (h : 3 < (nonEmptyTrimmedLines s.data).length) :
    collapse_lines s 3 = ⟨joinNL ((nonEmptyTrimmedLines s.data).take 3)⟩ ∧
    pySplitlines (collapse_lines s 3).data = (nonEmptyTrimmedLines s.data).take 3 := by
  have hmem : ∀ l ∈ (nonEmptyTrimmedLines s.data).take 3, l ≠ [] :=
    fun l hl => (nonEmptyTrimmedLines_mem ((List.take_sublist _ _).mem hl)).1
  have hbf : ∀ l ∈ (nonEmptyTrimmedLines s.data).take 3, ∀ c ∈ l, isLineBoundary c = false :=
    fun l hl => (nonEmptyTrimmedLines_mem ((List.take_sublist _ _).mem hl)).2.2.1
  have hne : (nonEmptyTrimmedLines s.data).take 3 ≠ [] := by
    apply List.ne_nil_of_length_pos
    rw [List.length_take]
    omega
  refine ⟨collapse_lines_eq_joinNL s 3, ?_⟩
  rw [collapse_lines_eq_joinNL s 3]
  rw [show (String.mk (joinNL ((nonEmptyTrimmedLines s.data).take 3))).data
        = joinNL ((nonEmptyTrimmedLines s.data).take 3) from rfl]
  exact pySplitlines_joinNL hne hmem hbf

/-- Witness for C6 at a concrete 4-line input. -/
theorem c6_collapse_first_three_witness :
    3 < (nonEmptyTrimmedLines (" a \nb\n\nc\nd" : String).data).length ∧
    collapse_lines " a \nb\n\nc\nd" 3
      = ⟨joinNL ((nonEmptyTrimmedLines (" a \nb\n\nc\nd" : String).data).take 3)⟩ :=
  ⟨by decide, (c6_collapse_first_three " a \nb\n\nc\nd" (by decide)).1⟩

/-- Claim C7: the response formatter (emoji stripping followed by line
collapsing) is idempotent, and so is each stage individually
(`collapse_lines` at every line limit). -/
theorem c7_formatter_idempotent :
    (∀ s, strip_emojis (strip_emojis s) = strip_emojis s) ∧
    (∀ s n, collapse_lines (collapse_lines s n) n = collapse_lines s n) ∧
    (∀ s, format_response (format_response s) = format_response s) :=
  ⟨strip_emojis_idem, collapse_lines_idem, format_response_idem⟩

/-- Claim C8: `detect_politeness` returns `"polite"` iff the trimmed
input contains one of the fixed politeness markers as a substring, and
it returns only `"polite"` or `"casual"`. -/
theorem c8_politeness_classifier (s : String) :
    (detect_politeness s = "polite" ↔
      ∃ m ∈ polite_markers, m.data <:+: pyStripList s.data) ∧
    (detect_politeness s = "polite" ∨ detect_politeness s = "casual") := by
  unfold detect_politeness
  by_cases h : polite_markers.any (fun m => containsSub (pyStripList s.data) m.data)
  · rw [if_pos h]
    constructor
    · constructor
      · intro _
        rcases List.any_eq_true.mp h with ⟨m, hm, hsub⟩
        exact ⟨m, hm, (containsSub_iff _ _).mp hsub⟩
      · intro _; rfl
    · left; rfl
  · rw [if_neg h]
    constructor
    · constructor
      · intro hc; exact absurd hc (by decide)
      · rintro ⟨m, hm, hinf⟩
        exact absurd (List.any_eq_true.mpr ⟨m, hm, (containsSub_iff _ _).mpr hinf⟩) h
    · right; rfl

/-- Witness for C8: a marker-containing input classifies as polite, a
marker-free one as casual. -/
theorem c8_politeness_classifier_witness :
    detect_politeness "감사합니다" = "polite" ∧ detect_politeness "뭐하냐" = "casual" :=
  ⟨(c8_politeness_classifier "감사합니다").1.mpr ⟨"감사", by decide, by decide⟩,
   by decide⟩

/-- Claim C10: `strip_emojis` only deletes characters in its fixed
ranges: the output is the filtering of the input through the range
test, hence a subsequence of the input; every non-range character of
the input survives; every output character is a non-range input
character; range-free inputs are returned unchanged. -/
theorem c10_strip_emojis_only_deletes (s : String) :
    (strip_emojis s).data = s.data.filter (fun c => !isEmojiChar c) ∧
    List.Sublist (strip_emojis s).data s.data ∧
    (∀ c ∈ s.data, isEmojiChar c = false → c ∈ (strip_emojis s).data) ∧
    (∀ c ∈ (strip_emojis s).data, isEmojiChar c = false ∧ c ∈ s.data) ∧
    ((∀ c ∈ s.data, isEmojiChar c = false) → strip_emojis s = s) := by
  refine ⟨rfl, List.filter_sublist _, ?_, ?_, strip_emojis_eq_self⟩
  · intro c hc he
    show c ∈ s.data.filter (fun c => !isEmojiChar c)
    exact List.mem_filter.mpr ⟨hc, by simp [he]⟩
  · intro c hc
    exact ⟨(mem_strip_emojis hc).2, (mem_strip_emojis hc).1⟩

/-- Witness for C10 at a concrete input with an emoji. -/
theorem c10_strip_emojis_only_deletes_witness :
    strip_emojis "h😀i" = "hi" ∧ ('h' ∈ (strip_emojis "h😀i").data) :=
  ⟨by decide, (c10_strip_emojis_only_deletes "h😀i").2.2.1 'h' (by decide) (by decide)⟩

/-- Claim C2: an utterance that is empty after trimming is answered with
the fixed repeat-prompt envelope, with no background task scheduled and
no synchronous completion call, for every callback value. -/
theorem c2_empty_utterance (utt : String) (cb : Option String)
    (comp : Except String String) (h : pyStrip utt = "") :
    (kakao_friend (.ok (utt, cb)) comp).response = kakao_text "?" ∧
    (kakao_friend (.ok (utt, cb)) comp).status = 200 ∧
    (kakao_friend (.ok (utt, cb)) comp).scheduled = [] ∧
    (kakao_friend (.ok (utt, cb)) comp).syncCallTimeouts = [] := by
  simp only [kakao_friend]
  rw [if_pos h]
  exact ⟨rfl, rfl, rfl, rfl⟩

/-- Witness for C2 at a whitespace-only utterance with a callback URL. -/
theorem c2_empty_utterance_witness :
    pyStrip " \n " = "" ∧
    (kakao_friend (.ok (" \n ", some "https://x")) (.ok "answer")).response = kakao_text "?" ∧
    (kakao_friend (.ok (" \n ", some "https://x")) (.ok "answer")).scheduled = [] :=
  ⟨by decide, (c2_empty_utterance " \n " (some "https://x") (.ok "answer") (by decide)).1,
   (c2_empty_utterance " \n " (some "https://x") (.ok "answer") (by decide)).2.2.1⟩

/-- Claim C1: a non-empty trimmed utterance with a callback address is
acknowledged immediately with the `useCallback` envelope (no `template`
key), exactly one background task is scheduled with the callback URL and
the trimmed utterance, no synchronous completion call is made, and the
scheduled task, when its completion call succeeds, attempts exactly one
POST of the formatted answer in the full template envelope to the
callback address. -/
theorem c1_callback_mode (utt cb : String) (comp : Except String String)
    (hutt : pyStrip utt ≠ "") (hcb : cb ≠ "") :
    (kakao_friend (.ok (utt, some cb)) comp).response = useCallbackResponse ∧
    (kakao_friend (.ok (utt, some cb)) comp).status = 200 ∧
    "template" ∉ (kakao_friend (.ok (utt, some cb)) comp).response.keys ∧
    (kakao_friend (.ok (utt, some cb)) comp).scheduled = [(cb, pyStrip utt)] ∧
    (kakao_friend (.ok (utt, some cb)) comp).syncCallTimeouts = [] ∧
    ∀ content post,
      (background_process cb (pyStrip utt) (.ok content) post).completionCalled = true ∧
      (background_process cb (pyStrip utt) (.ok content) post).posts
        = [(cb, kakao_text (collapse_lines (strip_emojis (pyStrip content)) 3))] := by
  have htr : truthy (some cb) = true := by
    simp [truthy, hcb]
  simp only [kakao_friend]
  rw [if_neg hutt, if_pos htr]
  refine ⟨rfl, rfl, ?_, rfl, rfl, ?_⟩
  · show "template" ∉ useCallbackResponse.keys
    decide
  · intro content post
    exact ⟨rfl, rfl⟩

/-- Witness for C1 at a concrete request with a callback URL. -/
theorem c1_callback_mode_witness :
    pyStrip "도와주세요" ≠ "" ∧
    (kakao_friend (.ok ("도와주세요", some "https://x")) (.ok "그냥 있음")).response
      = useCallbackResponse ∧
    (kakao_friend (.ok ("도와주세요", some "https://x")) (.ok "그냥 있음")).scheduled
      = [("https://x", pyStrip "도와주세요")] ∧
    (background_process "https://x" (pyStrip "도와주세요") (.ok "바쁨. 와이") (.ok ())).posts
      = [("https://x", kakao_text (collapse_lines (strip_emojis (pyStrip "바쁨. 와이")) 3))] := by
  have h := c1_callback_mode "도와주세요" "https://x" (.ok "그냥 있음") (by decide) (by decide)
  exact ⟨by decide, h.1, h.2.2.2.1, (h.2.2.2.2.2 "바쁨. 와이" (.ok ())).2⟩

/-- Claim C3: every exception inside the handler is caught: parse
failures and synchronous completion failures are answered with the fixed
fallback envelope; every path returns HTTP 200 and a well-formed
platform envelope; the synchronous completion call carries the 4-second
timeout. -/
theorem c3_failures_contained (body : Except String (String × Option String))
    (comp : Except String String) :
    (kakao_friend body comp).status = 200 ∧
    ((∃ msg, (kakao_friend body comp).response = kakao_text msg) ∨
      (kakao_friend body comp).response = useCallbackResponse) ∧
    (∀ e, body = .error e → (kakao_friend body comp).response = kakao_text "오류.") ∧
    (∀ utt cb e, body = .ok (utt, cb) → comp = .error e → pyStrip utt ≠ "" →
      truthy cb = false →
      (kakao_friend body comp).response = kakao_text "오류." ∧
      (kakao_friend body comp).syncCallTimeouts = [4]) := by
  cases body with
  | error e0 =>
    refine ⟨rfl, Or.inl ⟨"오류.", rfl⟩, fun e he => rfl, ?_⟩
    intro utt cb e hb
    exact absurd hb (by simp)
  | ok p =>
    rcases p with ⟨utt0, cb0⟩
    by_cases hutt : pyStrip utt0 = ""
    · simp only [kakao_friend]
      rw [if_pos hutt]
      refine ⟨rfl, Or.inl ⟨"?", rfl⟩, fun e he => by simp at he, ?_⟩
      intro utt cb e hb hc hne htr
      injection hb with hb1
      rw [Prod.mk.injEq] at hb1
      exact absurd (hb1.1 ▸ hutt) hne
    · by_cases htr0 : truthy cb0 = true
      · simp only [kakao_friend]
        rw [if_neg hutt, if_pos htr0]
        refine ⟨rfl, Or.inr rfl, fun e he => by simp at he, ?_⟩
        intro utt cb e hb hc hne htr
        injection hb with hb1
        rw [Prod.mk.injEq] at hb1
        rw [← hb1.2] at htr
        rw [htr0] at htr
        exact absurd htr (by simp)
      · cases comp with
        | ok content =>
          simp only [kakao_friend]
          rw [if_neg hutt, if_neg htr0]
          refine ⟨rfl, Or.inl ⟨strip_emojis (pyStrip content), rfl⟩,
            fun e he => by simp at he, ?_⟩
          intro utt cb e hb hc
          exact absurd hc (by simp)
        | error ec =>
          simp only [kakao_friend]
          rw [if_neg hutt, if_neg htr0]
          refine ⟨rfl, Or.inl ⟨"오류.", rfl⟩, fun e he => by simp at he, ?_⟩
          intro utt cb e hb hc hne htr
          exact ⟨rfl, rfl⟩

/-- Witness for C3: a parse failure and a synchronous completion failure
both answer with the fallback envelope at status 200. -/
theorem c3_failures_contained_witness :
    (kakao_friend (.error "bad json") (.ok "x")).response = kakao_text "오류." ∧
    (kakao_friend (.ok ("안녕", none)) (.error "timeout")).response = kakao_text "오류." ∧
    (kakao_friend (.ok ("안녕", none)) (.error "timeout")).syncCallTimeouts = [4] ∧
    (kakao_friend (.ok ("안녕", none)) (.error "timeout")).status = 200 := by
  have h1 := c3_failures_contained (.error "bad json") (.ok "x")
  have h2 := c3_failures_contained (.ok ("안녕", none)) (.error "timeout")
  refine ⟨h1.2.2.1 "bad json" rfl, ?_, ?_, h2.1⟩
  · exact (h2.2.2.2 "안녕" none "timeout" rfl rfl (by decide) rfl).1
  · exact (h2.2.2.2 "안녕" none "timeout" rfl rfl (by decide) rfl).2

/-- Counterexample to C4 as stated: in synchronous mode the handler
applies only emoji stripping, never `collapse_lines` and no emptiness
placeholder, so a 4-line completion output is returned with all 4 lines,
and an all-emoji completion output yields the empty text. -/
theorem c4_counterexample :
    (kakao_friend (.ok ("오늘 뭐함", none)) (.ok "1\n2\n3\n4")).response
      = kakao_text "1\n2\n3\n4" ∧
    (pySplitlines (("1\n2\n3\n4" : String).data)).length = 4 ∧
    (kakao_friend (.ok ("오늘 뭐함", none)) (.ok "😀")).response = kakao_text "" :=
  ⟨rfl, by decide, rfl⟩

/-- Claim C4 as amended: in synchronous mode (non-empty utterance, no
truthy callback) the response is the template envelope whose text is the
trimmed, emoji-stripped completion output; the text contains no emoji
characters, but it is not collapsed to 3 lines and may be empty. -/
theorem c4_sync_emoji_free (utt content : String) (cb : Option String)
    (hutt : pyStrip utt ≠ "") (hcb : truthy cb = false) :
    (kakao_friend (.ok (utt, cb)) (.ok content)).response
      = kakao_text (strip_emojis (pyStrip content)) ∧
    (kakao_friend (.ok (utt, cb)) (.ok content)).status = 200 ∧
    ∀ c ∈ (strip_emojis (pyStrip content)).data, isEmojiChar c = false := by
  simp only [kakao_friend]
  rw [if_neg hutt, if_neg (by simp [hcb])]
  refine ⟨rfl, rfl, ?_⟩
  intro c hc
  exact (mem_strip_emojis hc).2

/-- Witness for the amended C4 at a concrete synchronous request. -/
theorem c4_sync_emoji_free_witness :
    pyStrip "오늘 뭐함" ≠ "" ∧ truthy none = false ∧
    (kakao_friend (.ok ("오늘 뭐함", none)) (.ok "응 그래")).response
      = kakao_text (strip_emojis (pyStrip "응 그래")) :=
  ⟨by decide, rfl, (c4_sync_emoji_free "오늘 뭐함" "응 그래" none (by decide) rfl).1⟩

/-- Counterexample to C5 as stated: no placeholder is ever substituted;
an all-emoji completion output is empty after emoji stripping and line
truncation, and the callback POST then carries the empty string in its
text field. -/
theorem c5_counterexample :
    (background_process "https://x" "질문" (.ok "😀") (.ok ())).posts
      = [("https://x", kakao_text "")] := rfl

/-- Claim C5 as amended: the callback delivery carries exactly the
processed completion output with no placeholder substitution, so when
that output is empty the outbound envelope's text field is the empty
string. -/
theorem c5_no_placeholder (url t content : String) (post : Except String Unit)
    (h : collapse_lines (strip_emojis (pyStrip content)) 3 = "") :
    (background_process url t (.ok content) post).posts = [(url, kakao_text "")] := by
  simp only [background_process]
  rw [h]

/-- Witness for the amended C5 at a concrete all-emoji completion output. -/
theorem c5_no_placeholder_witness :
    collapse_lines (strip_emojis (pyStrip "😀")) 3 = "" ∧
    (background_process "https://cb" "안녕" (.ok "😀") (.error "net")).posts
      = [("https://cb", kakao_text "")] :=
  ⟨by decide, c5_no_placeholder "https://cb" "안녕" "😀" (.error "net") (by decide)⟩

/-- Claim C9: for every utterance the composed message list is exactly
one system turn (persona instruction, tone addendum, profile block
concatenated), then the fixed constant few-shot turns, then the live
user turn last. -/
theorem c9_message_order (u : String) :
    ∃ addon, (addon = "사용자가 존댓말이면 너도 존댓말로." ∨ addon = "사용자가 반말이면 너도 반말로.") ∧
      build_messages u =
        ⟨"system", FRIEND_SYSTEM ++ "\n" ++ addon ++ "\n\n" ++ FRIEND_PROFILE⟩ ::
          (FRIEND_FEWSHOT ++ [⟨"user", u⟩]) ∧
      (build_messages u).length = 6 ∧
      (build_messages u).head? =
        some ⟨"system", FRIEND_SYSTEM ++ "\n" ++ addon ++ "\n\n" ++ FRIEND_PROFILE⟩ ∧
      ((build_messages u).drop 1).take 4 = FRIEND_FEWSHOT ∧
      (build_messages u).getLast? = some ⟨"user", u⟩ := by
  by_cases h : detect_politeness u = "polite"
  · refine ⟨"사용자가 존댓말이면 너도 존댓말로.", Or.inl rfl, ?_, ?_, ?_, ?_, ?_⟩ <;>
      simp [build_messages, h, FRIEND_FEWSHOT]
  · refine ⟨"사용자가 반말이면 너도 반말로.", Or.inr rfl, ?_, ?_, ?_, ?_, ?_⟩ <;>
      simp [build_messages, h, FRIEND_FEWSHOT]

end HyeongjunBot
